import Mathlib

/-!
Verification of the CI-matrix utilities of this repository
(`examples/esp32/scripts/generate_matrix.py` and
`examples/esp32/scripts/get_app_info.py`) against their specification.

The scripts operate on a YAML document parsed into Python values, so the
embedding models YAML scalars and containers as the inductive type `YVal`,
with string-keyed mappings as ordered association lists (Python dicts
preserve insertion order and the configuration keys the scripts read are
strings).  Python operations that can raise (`x[i]`, `len(x)`, iteration,
`str.replace` on a non-string, dict access) are modelled by `Except Err`
computations mirroring the exception the interpreter would raise.  The
configuration document itself is modelled by `Config`: a record whose three
fields stand for the presence of the top-level keys `metadata`, `apps` and
`ci_config`, with `Metadata` and `AppCfg` likewise recording presence of
exactly the keys the scripts read (no other key of those dicts is ever
accessed by the code under study).
-/

/-- A parsed YAML value as produced by `yaml.safe_load`: null, booleans,
integers, strings, sequences, and string-keyed mappings. -/
inductive YVal where
  | ynull : YVal
  | ybool (b : Bool) : YVal
  | yint (n : Int) : YVal
  | ystr (s : String) : YVal
  | ylist (l : List YVal) : YVal
  | ymap (m : List (String × YVal)) : YVal

mutual

def YVal.decEq : (a b : YVal) → Decidable (a = b)
  | .ynull, .ynull => .isTrue rfl
  | .ynull, .ybool _ => .isFalse nofun
  | .ynull, .yint _ => .isFalse nofun
  | .ynull, .ystr _ => .isFalse nofun
  | .ynull, .ylist _ => .isFalse nofun
  | .ynull, .ymap _ => .isFalse nofun
  | .ybool _, .ynull => .isFalse nofun
  | .ybool a, .ybool b =>
      if h : a = b then .isTrue (by rw [h]) else .isFalse (by intro hc; injection hc; exact h ‹_›)
  | .ybool _, .yint _ => .isFalse nofun
  | .ybool _, .ystr _ => .isFalse nofun
  | .ybool _, .ylist _ => .isFalse nofun
  | .ybool _, .ymap _ => .isFalse nofun
  | .yint _, .ynull => .isFalse nofun
  | .yint _, .ybool _ => .isFalse nofun
  | .yint a, .yint b =>
      if h : a = b then .isTrue (by rw [h]) else .isFalse (by intro hc; injection hc; exact h ‹_›)
  | .yint _, .ystr _ => .isFalse nofun
  | .yint _, .ylist _ => .isFalse nofun
  | .yint _, .ymap _ => .isFalse nofun
  | .ystr _, .ynull => .isFalse nofun
  | .ystr _, .ybool _ => .isFalse nofun
  | .ystr _, .yint _ => .isFalse nofun
  | .ystr a, .ystr b =>
      if h : a = b then .isTrue (by rw [h]) else .isFalse (by intro hc; injection hc; exact h ‹_›)
  | .ystr _, .ylist _ => .isFalse nofun
  | .ystr _, .ymap _ => .isFalse nofun
  | .ylist _, .ynull => .isFalse nofun
  | .ylist _, .ybool _ => .isFalse nofun
  | .ylist _, .yint _ => .isFalse nofun
  | .ylist _, .ystr _ => .isFalse nofun
  | .ylist a, .ylist b =>
      match YVal.decEqList a b with
      | .isTrue h => .isTrue (by rw [h])
      | .isFalse h => .isFalse (by intro hc; injection hc; exact h ‹_›)
  | .ylist _, .ymap _ => .isFalse nofun
  | .ymap _, .ynull => .isFalse nofun
  | .ymap _, .ybool _ => .isFalse nofun
  | .ymap _, .yint _ => .isFalse nofun
  | .ymap _, .ystr _ => .isFalse nofun
  | .ymap _, .ylist _ => .isFalse nofun
  | .ymap a, .ymap b =>
      match YVal.decEqMap a b with
      | .isTrue h => .isTrue (by rw [h])
      | .isFalse h => .isFalse (by intro hc; injection hc; exact h ‹_›)

def YVal.decEqList : (a b : List YVal) → Decidable (a = b)
  | [], [] => .isTrue rfl
  | [], _ :: _ => .isFalse nofun
  | _ :: _, [] => .isFalse nofun
  | x :: xs, y :: ys =>
      match YVal.decEq x y with
      | .isTrue h1 =>
          match YVal.decEqList xs ys with
          | .isTrue h2 => .isTrue (by rw [h1, h2])
          | .isFalse h2 => .isFalse (by intro hc; injection hc; exact h2 ‹_›)
      | .isFalse h1 => .isFalse (by intro hc; injection hc; exact h1 ‹_›)

def YVal.decEqMap : (a b : List (String × YVal)) → Decidable (a = b)
  | [], [] => .isTrue rfl
  | [], _ :: _ => .isFalse nofun
  | _ :: _, [] => .isFalse nofun
  | (k1, v1) :: xs, (k2, v2) :: ys =>
      if hk : k1 = k2 then
        match YVal.decEq v1 v2 with
        | .isTrue h1 =>
            match YVal.decEqMap xs ys with
            | .isTrue h2 => .isTrue (by rw [hk, h1, h2])
            | .isFalse h2 => .isFalse (by intro hc; injection hc; exact h2 ‹_›)
        | .isFalse h1 =>
            .isFalse (by intro hc; injection hc with hp ht; exact h1 (congrArg Prod.snd hp))
      else .isFalse (by intro hc; injection hc with hp ht; exact hk (congrArg Prod.fst hp))

end

instance : DecidableEq YVal := YVal.decEq

/-- Python truthiness (`bool(x)`) on a YAML value: `None`, `False`, `0`,
the empty string, the empty list and the empty dict are falsy. -/
def YVal.truthy : YVal → Bool
  | .ynull => false
  | .ybool b => b
  | .yint n => n != 0
  | .ystr s => s != ""
  | .ylist l => !l.isEmpty
  | .ymap m => !m.isEmpty

/-- `isinstance(x, list)`. -/
def YVal.isList : YVal → Bool
  | .ylist _ => true
  | _ => false

/-- `isinstance(x, str)`. -/
def YVal.isStr : YVal → Bool
  | .ystr _ => true
  | _ => false

/-- The exceptions / fatal exits the scripts can produce. -/
inductive Err where
  | keyError (k : String) : Err
  | indexError : Err
  | typeError : Err
  | attributeError : Err
  | unknownApp (a : String) : Err
deriving DecidableEq, Repr

/-- Python iteration `for x in v`: lists yield their elements, strings their
characters (as one-character strings), dicts their keys; other values raise
`TypeError`. -/
def pyIter : YVal → Except Err (List YVal)
  | .ylist l => .ok l
  | .ystr s => .ok (s.toList.map fun c => .ystr (String.singleton c))
  | .ymap m => .ok (m.map fun kv => .ystr kv.1)
  | _ => .error .typeError

/-- Python `len(v)`: defined for lists, strings and dicts, `TypeError`
otherwise. -/
def pyLen : YVal → Except Err Nat
  | .ylist l => .ok l.length
  | .ystr s => .ok s.length
  | .ymap m => .ok m.length
  | _ => .error .typeError

/-- Python `v[i]` for a non-negative integer index `i`: list and string
indexing with `IndexError` out of range; on a dict the integer is looked up
as a key, which a string-keyed dict never contains (`KeyError`); other
values raise `TypeError`. -/
def pyIndex : YVal → Nat → Except Err YVal
  | .ylist l, i =>
      match l[i]? with
      | some v => .ok v
      | none => .error .indexError
  | .ystr s, i =>
      match s.toList[i]? with
      | some c => .ok (.ystr (String.singleton c))
      | none => .error .indexError
  | .ymap _, i => .error (.keyError (toString i))
  | _, _ => .error .typeError

/-- Whether a value may be a dict key (`hash(x)` succeeds): lists and dicts
are unhashable in Python. -/
def YVal.hashable : YVal → Bool
  | .ylist _ => false
  | .ymap _ => false
  | _ => true

/-- Dict assignment `m[k] = v` on an association list: replace the value at
an existing key, else append the new binding (Python dicts keep the
insertion position of a replaced key). -/
def dictSet (m : List (YVal × YVal)) (k v : YVal) : List (YVal × YVal) :=
  if m.any fun p => p.1 == k then
    m.map fun p => if p.1 == k then (k, v) else p
  else m ++ [(k, v)]

/-- Dict lookup `m.get(k, d)` on an association list. -/
def dictGet (m : List (YVal × YVal)) (k d : YVal) : YVal :=
  match m.find? fun p => p.1 == k with
  | some p => p.2
  | none => d

/-- Python `k in v` for a string `k`: key membership for dicts, element
membership for lists, substring test for strings, `TypeError` otherwise. -/
def pyContains (v : YVal) (k : String) : Except Err Bool :=
  match v with
  | .ymap m => .ok (m.any fun kv => kv.1 == k)
  | .ylist l => .ok (l.any fun x => x == .ystr k)
  | .ystr s => .ok ((s.splitOn k).length > 1)
  | _ => .error .typeError

/-- Python `v[k]` for a string key `k`: dict lookup with `KeyError` when the
key is absent; `TypeError` on non-dicts. -/
def pyGetItemS (v : YVal) (k : String) : Except Err YVal :=
  match v with
  | .ymap m =>
      match m.lookup k with
      | some x => .ok x
      | none => .error (.keyError k)
  | _ => .error .typeError

/-- The `metadata` section of `app_config.yml` as read by the scripts: each
field records whether the corresponding key is present and, when it is, its
raw YAML value (`metadata.get('idf_versions', ...)` etc.). -/
structure Metadata where
  idf_versions : Option YVal
  build_types : Option YVal
  target : Option YVal
deriving DecidableEq

/-- One entry of the `apps` mapping, recording presence and raw value of
exactly the keys `generate_matrix.py` / `get_app_info.py` read. -/
structure AppCfg where
  ci_enabled : Option YVal
  idf_versions : Option YVal
  build_types : Option YVal
  description : Option YVal
  source_file : Option YVal
deriving DecidableEq

/-- The parsed configuration document: presence and content of the
top-level keys `metadata`, `apps` (an ordered mapping of app name to app
entry) and `ci_config`. -/
structure Config where
  metadata : Option Metadata
  apps : Option (List (String × AppCfg))
  ci_config : Option YVal

/-- One matrix entry (the `candidate` dict built at lines 237-245 of
`generate_matrix.py`).  `idf_version` is a string because its construction
calls `str.replace` on it; `build_type` and `target` are stored as the raw
YAML values the code puts in the dict. -/
structure MatrixEntry where
  idf_version : String
  idf_version_docker : String
  idf_version_file : String
  build_type : YVal
  app_name : String
  target : YVal
  config_source : String
deriving DecidableEq

/-- Python `s.replace(a, b)` for one-character `a` and `b` (the only form
the script uses): every occurrence of the character `a` is replaced by `b`,
which for single-character patterns is exactly a character map. -/
def replaceChar (s : String) (a b : Char) : String :=
  ⟨s.data.map fun c => if c = a then b else c⟩

/-- Docker-safe version string: `idf_version.replace('/', '-')` (line 234). -/
def docker_safe (s : String) : String := replaceChar s '/' '-'

/-- File-safe version string:
`idf_version.replace('/', '_').replace('.', '_')` (line 236). -/
def file_safe (s : String) : String := replaceChar (replaceChar s '/' '_') '.' '_'

/-- Field access `entry[k]` / `k in entry` on a candidate dict: the seven
keys the construction puts in it, `none` for any other key. -/
def MatrixEntry.get (e : MatrixEntry) (k : String) : Option YVal :=
  if k = "idf_version" then some (.ystr e.idf_version)
  else if k = "idf_version_docker" then some (.ystr e.idf_version_docker)
  else if k = "idf_version_file" then some (.ystr e.idf_version_file)
  else if k = "build_type" then some e.build_type
  else if k = "app_name" then some (.ystr e.app_name)
  else if k = "target" then some e.target
  else if k = "config_source" then some (.ystr e.config_source)
  else none

/-- One exclusion rule against one candidate:
`all(k in entry and entry[k] == v for k, v in exc.items())` (line 190). -/
def ruleMatch (m : List (String × YVal)) (e : MatrixEntry) : Bool :=
  m.all fun kv => e.get kv.1 == some kv.2

/-- The loop of `is_excluded` over the already-obtained iterator of
exclusion rules: a non-dict rule raises `AttributeError` at `exc.items()`
when it is reached; a matching rule returns `True` without looking at the
rules after it. -/
def is_excludedFrom : List YVal → MatrixEntry → Except Err Bool
  | [], _ => .ok false
  | .ymap m :: rest, e => if ruleMatch m e then .ok true else is_excludedFrom rest e
  | _ :: _, _ => .error .attributeError

/-- `is_excluded(entry)` (lines 187-192), taking the raw
`exclude_combinations` value closed over by the Python function. -/
def is_excluded (excv : YVal) (e : MatrixEntry) : Except Err Bool := do
  let l ← pyIter excv
  is_excludedFrom l e

/-- The loop at lines 177-182 building `idf_to_build_types` from the global
version list and the global per-version build-type table. -/
def mkIdfTo (gbt : YVal) : List YVal → Nat → List (YVal × YVal) →
    Except Err (List (YVal × YVal))
  | [], _, acc => .ok acc
  | v :: vs, i, acc => do
      let n ← pyLen gbt
      let bt ← if i < n then pyIndex gbt i
               else pure (.ylist [.ystr "Debug", .ystr "Release"])
      if v.hashable then mkIdfTo gbt vs (i + 1) (dictSet acc v bt)
      else .error .typeError

/-- The build types paired with the version at index `i` of the app's
effective version list (lines 206-229): nested app `build_types` are
indexed by `i` with a `['Debug', 'Release']` fallback out of range, flat
app `build_types` are used whole for every `i`, and an app without
`build_types` uses the global `idf_to_build_types` mapping.  The
`app_build_types[0]` probe deciding flat against nested is performed first,
exactly as at line 211. -/
def buildTypesFor (abt? : Option YVal) (idfTo : List (YVal × YVal)) (i : Nat)
    (v : YVal) : Except Err (List YVal) :=
  match abt? with
  | some abt => do
      let first ← pyIndex abt 0
      match first with
      | .ylist _ => do
          let n ← pyLen abt
          if i < n then do
            let bi ← pyIndex abt i
            pyIter bi
          else pure [.ystr "Debug", .ystr "Release"]
      | _ => pyIter abt
  | none =>
      if v.hashable then
        pyIter (dictGet idfTo v (.ylist [.ystr "Debug", .ystr "Release"]))
      else .error .typeError

/-- The `effective_combinations` list built by the loop at lines 204-229:
each version of the effective version list, in order, paired with each of
its build types, in order. -/
def effComb (abt? : Option YVal) (idfTo : List (YVal × YVal)) :
    List YVal → Nat → Except Err (List (YVal × YVal))
  | [], _ => .ok []
  | v :: vs, i => do
      let bts ← buildTypesFor abt? idfTo i v
      let rest ← effComb abt? idfTo vs (i + 1)
      .ok ((bts.map fun bt => (v, bt)) ++ rest)

/-- The candidate dict built at lines 237-245 for one
(version, build type) combination. -/
def mkCand (appName cs : String) (tgt : YVal) (s : String) (bt : YVal) :
    MatrixEntry :=
  { idf_version := s
    idf_version_docker := docker_safe s
    idf_version_file := file_safe s
    build_type := bt
    app_name := appName
    target := tgt
    config_source := cs }

/-- The loop at lines 232-247: build a candidate for every combination (a
non-string version raises `AttributeError` at `.replace`) and keep it when
`is_excluded` rejects it for every rule. -/
def mkEntries (appName cs : String) (tgt excv : YVal) :
    List (YVal × YVal) → Except Err (List MatrixEntry)
  | [] => .ok []
  | (v, bt) :: rest =>
      match v with
      | .ystr s => do
          let e := mkCand appName cs tgt s bt
          let ex ← is_excluded excv e
          let es ← mkEntries appName cs tgt excv rest
          .ok (if ex then es else e :: es)
      | _ => .error .attributeError

/-- The per-app loop at lines 196-247: skip apps whose `ci_enabled` is
falsy, take the app's `idf_versions` over the global ones, build the
effective combinations and the surviving candidates, with `config_source`
set to `"app"` exactly when the app declares `build_types` or
`idf_versions`. -/
def processApps (gv : YVal) (idfTo : List (YVal × YVal)) (excv tgt : YVal) :
    List (String × AppCfg) → Except Err (List MatrixEntry)
  | [] => .ok []
  | (name, ac) :: rest =>
      if ((ac.ci_enabled.getD (.ybool true)).truthy : Bool) = false then
        processApps gv idfTo excv tgt rest
      else do
        let pvl ← pyIter (ac.idf_versions.getD gv)
        let combos ← effComb ac.build_types idfTo pvl 0
        let cs := if ac.build_types.isSome || ac.idf_versions.isSome then "app" else "global"
        let es ← mkEntries name cs tgt excv combos
        let esRest ← processApps gv idfTo excv tgt rest
        .ok (es ++ esRest)

/-- Line 185: `config.get('ci_config', {}).get('exclude_combinations', []) or []`.
A present `ci_config` that is not a dict (including null) raises
`AttributeError` at the second `.get`; a falsy `exclude_combinations`
value is replaced by the empty list. -/
def getExcludes (c : Config) : Except Err YVal :=
  match c.ci_config.getD (.ymap []) with
  | .ymap m =>
      let ex0 := (m.lookup "exclude_combinations").getD (.ylist [])
      .ok (if ex0.truthy then ex0 else .ylist [])
  | _ => .error .attributeError

/-- `generate_matrix` (lines 167-249) on an already-loaded configuration:
the returned list is the value of the single key `include` of the result.
Steps in source order: read `metadata` (`KeyError` when absent), take the
global defaults, iterate the global version list, build
`idf_to_build_types`, read the exclusion list, then process the `apps`
mapping (`KeyError` when absent). -/
def generate_matrix (c : Config) : Except Err (List MatrixEntry) := do
  let md ← match c.metadata with
    | some md => pure md
    | none => throw (Err.keyError "metadata")
  let gv := md.idf_versions.getD (.ylist [.ystr "release/v5.5"])
  let gbt := md.build_types.getD (.ylist [.ylist [.ystr "Debug", .ystr "Release"]])
  let gvl ← pyIter gv
  let idfTo ← mkIdfTo gbt gvl 0 []
  let excv ← getExcludes c
  let apps ← match c.apps with
    | some a => pure a
    | none => throw (Err.keyError "apps")
  let tgt := md.target.getD (.ystr "esp32c6")
  processApps gv idfTo excv tgt apps

/-- Whether every element of a list is a string
(`all(isinstance(x, str) for x in l)`). -/
def allStr (l : List YVal) : Bool := l.all YVal.isStr

/-- The inner loop at lines 291-295 checking each element of a nested
`build_types` value, producing error strings in loop order. -/
def nestedItemErrors (n : String) : Nat → List YVal → List String
  | _, [] => []
  | i, x :: xs =>
      (match x with
       | .ylist bl =>
           if allStr bl then []
           else [s!"App '{n}' build_types[{i}] contains non-string values"]
       | _ => [s!"App '{n}' build_types[{i}] is not a list"]) ++
      nestedItemErrors n (i + 1) xs

/-- The `build_types` validation at lines 286-301 for one app. -/
def appBTErrors (n : String) (bt : YVal) : List String :=
  match bt with
  | .ylist l =>
      match l with
      | .ylist _ :: _ => nestedItemErrors n 0 l
      | _ =>
          if allStr l then []
          else [s!"App '{n}' build_types contains non-string values"]
  | _ => [s!"App '{n}' build_types is not a list"]

/-- The `idf_versions` validation at lines 304-309 for one app. -/
def appIVErrors (n : String) (iv : YVal) : List String :=
  match iv with
  | .ylist l =>
      if allStr l then []
      else [s!"App '{n}' idf_versions contains non-string values"]
  | _ => [s!"App '{n}' idf_versions is not a list"]

/-- The per-app validation loop at lines 278-309, returning the
(errors, warnings) the loop appends, in loop order. -/
def appChecks : List (String × AppCfg) → List String × List String
  | [] => ([], [])
  | (n, ac) :: rest =>
      let w := (if ac.description.isNone then [s!"App '{n}' missing description"] else []) ++
               (if ac.source_file.isNone then [s!"App '{n}' missing source_file"] else [])
      let e := (match ac.build_types with
                | some bt => appBTErrors n bt
                | none => []) ++
               (match ac.idf_versions with
                | some iv => appIVErrors n iv
                | none => [])
      (e ++ (appChecks rest).1, w ++ (appChecks rest).2)

/-- The `ci_config` validation at lines 311-317: the errors (zero or one)
the check appends.  The membership test `'exclude_combinations' in
ci_config` and the subsequent indexing can raise on a non-dict `ci_config`
value, hence the `Except`. -/
def ciErrors (cio : Option YVal) : Except Err (List String) :=
  match cio with
  | none => .ok []
  | some cv => do
      let hasKey ← pyContains cv "exclude_combinations"
      if hasKey then do
        let excludes ← pyGetItemS cv "exclude_combinations"
        .ok (if excludes.truthy && !excludes.isList then
               ["ci_config.exclude_combinations is not a list"] else [])
      else .ok []

/-- Body of `validate_config` once both required sections are present:
metadata warnings, apps checks, then the `ci_config` check, with `ok` as
`len(errors) == 0`. -/
def validateMain (md : Metadata) (apps : List (String × AppCfg))
    (cio : Option YVal) : Except Err (Bool × List String × List String) :=
  let mdWarns :=
    (if md.idf_versions.isNone then ["No 'idf_versions' specified in metadata, using default"] else []) ++
    (if md.build_types.isNone then ["No 'build_types' specified in metadata, using default"] else []) ++
    (if md.target.isNone then ["No 'target' specified in metadata, using default"] else [])
  let appRes :=
    if apps.isEmpty then (["No apps defined in configuration"], ([] : List String))
    else appChecks apps
  let warns := mdWarns ++ appRes.2
  do
    let ciErrs ← ciErrors cio
    let errs := appRes.1 ++ ciErrs
    pure (errs.isEmpty, errs, warns)

/-- `validate_config` (lines 251-319): the `(ok, errors, warnings)` triple.
A missing `metadata` or `apps` section returns early with only those
errors; otherwise the metadata warnings, the apps checks and the
`ci_config.exclude_combinations` check run in order, and `ok` is
`len(errors) == 0`. -/
def validate_config (c : Config) : Except Err (Bool × List String × List String) :=
  match c.metadata, c.apps with
  | none, none =>
      .ok (false, ["Missing required 'metadata' section",
                   "Missing required 'apps' section"], [])
  | none, some _ => .ok (false, ["Missing required 'metadata' section"], [])
  | some _, none => .ok (false, ["Missing required 'apps' section"], [])
  | some md, some apps => validateMain md apps c.ci_config

/-- `get_app_source_file` (lines 144-152 of `get_app_info.py`): the fatal
exit for an unknown app is modelled by `Err.unknownApp`. -/
def get_app_source_file (c : Config) (app_type : String) : Except Err YVal := do
  let apps ← match c.apps with
    | some a => pure a
    | none => throw (Err.keyError "apps")
  match apps.lookup app_type with
  | some ac =>
      match ac.source_file with
      | some v => pure v
      | none => throw (Err.keyError "source_file")
  | none => throw (Err.unknownApp app_type)

/-- `list_apps` (lines 154-158 of `get_app_info.py`). -/
def list_apps (c : Config) : Except Err (List String) :=
  match c.apps with
  | some a => .ok (a.map Prod.fst)
  | none => .error (Err.keyError "apps")

/-- `validate_app` (lines 160-163 of `get_app_info.py`). -/
def validate_app (c : Config) (app_type : String) : Except Err Bool :=
  match c.apps with
  | some a => .ok (a.any fun p => p.1 == app_type)
  | none => .error (Err.keyError "apps")

/-- Modelled from the spec's wording for the nested `build_types` claim:
the set at position `i`, with out-of-range positions falling back to
`{"Debug", "Release"}`. -/
def nestedTypesAt (bts : List (List YVal)) (i : Nat) : List YVal :=
  bts[i]?.getD [.ystr "Debug", .ystr "Release"]

/-- Modelled from the spec's wording for the validator claim: the warnings
the metadata checks can produce (missing `idf_versions`, `build_types`,
`target`). -/
def specMetadataWarnings (md : Metadata) : List String :=
  (if md.idf_versions.isNone then ["No 'idf_versions' specified in metadata, using default"] else []) ++
  (if md.build_types.isNone then ["No 'build_types' specified in metadata, using default"] else []) ++
  (if md.target.isNone then ["No 'target' specified in metadata, using default"] else [])

/-- Modelled from the spec's wording for the validator claim: the warnings
the per-app checks can produce (missing `description`, missing
`source_file`), for every app in configuration order. -/
def specAppWarnings : List (String × AppCfg) → List String
  | [] => []
  | (n, ac) :: rest =>
      (if ac.description.isNone then [s!"App '{n}' missing description"] else []) ++
      (if ac.source_file.isNone then [s!"App '{n}' missing source_file"] else []) ++
      specAppWarnings rest

/-- Metadata section with none of the optional keys. -/
def mdEmpty : Metadata := ⟨none, none, none⟩

/-- Metadata section with all three keys at their documented defaults. -/
def mdFull : Metadata :=
  ⟨some (.ylist [.ystr "release/v5.5"]),
   some (.ylist [.ylist [.ystr "Debug", .ystr "Release"]]),
   some (.ystr "esp32c6")⟩

/-- An app entry with no keys at all. -/
def appPlain : AppCfg := ⟨none, none, none, none, none⟩

/-- An app entry declaring `build_types: []` (the empty list). -/
def appEmptyBT : AppCfg := ⟨none, none, some (.ylist []), none, none⟩

/-- An app entry declaring `idf_versions: []` (the empty list). -/
def appEmptyIV : AppCfg := ⟨none, some (.ylist []), none, none, none⟩

/-- An app entry with `description` and `source_file` and no overrides. -/
def appDocumented : AppCfg :=
  ⟨none, none, none, some (.ystr "demo"), some (.ystr "main.c")⟩

/-- Configuration whose single app has an empty effective version list. -/
def cfgEmptyVersions : Config := ⟨some mdEmpty, some [("a", appEmptyIV)], none⟩

/-- Configuration whose single app declares `build_types` as the empty
list while its effective version list is the non-empty global default. -/
def cfgEmptyBuildTypes : Config := ⟨some mdEmpty, some [("a", appEmptyBT)], none⟩

/-- Configuration with `ci_config.exclude_combinations` present and null:
a non-list value that is falsy. -/
def cfgNullExcludes : Config :=
  ⟨some mdFull, some [("a", appDocumented)],
   some (.ymap [("exclude_combinations", .ynull)])⟩

/-- Configuration with `ci_config.exclude_combinations` present, truthy
and not a list. -/
def cfgTruthyExcludes : Config :=
  ⟨some mdFull, some [("a", appDocumented)],
   some (.ymap [("exclude_combinations", .ystr "oops")])⟩

/-- Configuration whose exclusion list contains the empty rule. -/
def cfgEmptyRule : Config :=
  ⟨some mdEmpty, some [("gpio_test", appPlain)],
   some (.ymap [("exclude_combinations", .ylist [.ymap []])])⟩

/-- Configuration with one documented plain app, used for the lookup and
provenance witnesses. -/
def cfgOneApp : Config := ⟨some mdEmpty, some [("gpio_test", appDocumented)], none⟩

/-- C1: the spec says an app whose effective version list or build-type
set is empty — the empty `build_types` list included — contributes zero
entries and resolution completes without error.  The code agrees for an
empty effective version list (first conjunct) but evaluating
`app_build_types[0]` at line 211 raises `IndexError` for a declared empty
`build_types` list when the effective version list is non-empty (second
conjunct), so resolution aborts instead of yielding zero entries. -/
theorem c1_empty_build_types_raises :
    generate_matrix cfgEmptyVersions = .ok [] ∧
    generate_matrix cfgEmptyBuildTypes = .error .indexError :=
  ⟨rfl, rfl⟩

/-- A flat `build_types` list is detected by its non-list first element,
and is then used whole for every version index. -/
theorem buildTypesFor_flat (idfTo : List (YVal × YVal)) (i : Nat) (v : YVal)
    (b : YVal) (bs : List YVal) (hb : b.isList = false) :
    buildTypesFor (some (.ylist (b :: bs))) idfTo i v = .ok (b :: bs) := by
  have h0 : pyIndex (.ylist (b :: bs)) 0 = .ok b := by simp [pyIndex]
  cases b with
  | ylist l => simp [YVal.isList] at hb
  | ynull => simp only [buildTypesFor, h0]; rfl
  | ybool x => simp only [buildTypesFor, h0]; rfl
  | yint x => simp only [buildTypesFor, h0]; rfl
  | ystr x => simp only [buildTypesFor, h0]; rfl
  | ymap x => simp only [buildTypesFor, h0]; rfl

/-- C2: an app-level flat `build_types` list (a non-empty sequence whose
first element is not a list) is applied unchanged to every version of the
effective version list, whatever the starting index: the effective
combinations are exactly the version list crossed with the flat list, in
order, with no positional slicing. -/
theorem c2_flat_build_types_cross (idfTo : List (YVal × YVal))
    (versions : List YVal) (b : YVal) (bs : List YVal) (i : Nat)
    (hb : b.isList = false) :
    effComb (some (.ylist (b :: bs))) idfTo versions i =
      .ok (versions.flatMap fun v => (b :: bs).map fun bt => (v, bt)) := by
  induction versions generalizing i with
  | nil => rfl
  | cons v vs ih =>
      simp only [effComb, buildTypesFor_flat idfTo i v b bs hb, ih (i + 1),
        List.flatMap_cons]
      rfl

/-- Witness for C2 at a concrete input: one flat build type, two versions. -/
theorem c2_flat_build_types_cross_witness :
    effComb (some (.ylist [.ystr "Debug"])) [] [.ystr "a", .ystr "b"] 0 =
      .ok [(.ystr "a", .ystr "Debug"), (.ystr "b", .ystr "Debug")] := by
  have h := c2_flat_build_types_cross [] [.ystr "a", .ystr "b"]
    (.ystr "Debug") [] 0 rfl
  simpa using h

/-- Reduction of a successful monadic step in `Except Err`. -/
theorem ebind_ok {α β : Type} (a : α) (f : α → Except Err β) :
    (Except.ok a >>= f) = f a := rfl

/-- Reduction of a failing monadic step in `Except Err`. -/
theorem ebind_err {α β : Type} (e : Err) (f : α → Except Err β) :
    (Except.error e >>= f) = Except.error e := rfl

/-- A nested `build_types` value (first element a list) is indexed by the
version position, falling back to `["Debug", "Release"]` out of range. -/
theorem buildTypesFor_nested (idfTo : List (YVal × YVal)) (i : Nat) (v : YVal)
    (l0 : List YVal) (rest : List (List YVal)) :
    buildTypesFor (some (.ylist ((l0 :: rest).map YVal.ylist))) idfTo i v =
      .ok (nestedTypesAt (l0 :: rest) i) := by
  by_cases hi : i < (l0 :: rest).length
  · obtain ⟨bl, hbl⟩ : ∃ bl, (l0 :: rest)[i]? = some bl :=
      ⟨_, List.getElem?_eq_getElem hi⟩
    have hmap : (YVal.ylist l0 :: rest.map YVal.ylist)[i]? = some (.ylist bl) := by
      have h2 : ((l0 :: rest).map YVal.ylist)[i]? = some (.ylist bl) := by
        rw [List.getElem?_map, hbl]
        rfl
      rw [List.map_cons] at h2
      exact h2
    have hlen : i < rest.length + 1 := by simpa using hi
    simp only [buildTypesFor, pyIndex, pyLen, List.map_cons, hmap, ebind_ok]
    simp [hlen, pyIter, nestedTypesAt, hbl, ebind_ok]
  · have hnone : ((l0 :: rest) : List (List YVal))[i]? = none :=
      List.getElem?_eq_none (Nat.le_of_not_lt hi)
    have hlen : ¬ i < rest.length + 1 := by simpa using hi
    simp only [buildTypesFor, pyIndex, pyLen, List.map_cons, ebind_ok]
    simp [hlen, pyIter, nestedTypesAt, hnone, ebind_ok]
    rfl

/-- C3: an app-level nested `build_types` (a sequence of sequences) is
applied positionally: the version at position `i` of the effective version
list is paired with exactly the set at position `i` of `build_types`, and
with `{"Debug", "Release"}` for every position out of range. -/
theorem c3_nested_build_types (idfTo : List (YVal × YVal))
    (versions : List YVal) (l0 : List YVal) (rest : List (List YVal)) (i : Nat) :
    effComb (some (.ylist ((l0 :: rest).map YVal.ylist))) idfTo versions i =
      .ok ((versions.enumFrom i).flatMap fun p =>
        (nestedTypesAt (l0 :: rest) p.1).map fun bt => (p.2, bt)) := by
  induction versions generalizing i with
  | nil => rfl
  | cons v vs ih =>
      simp only [effComb, buildTypesFor_nested idfTo i v l0 rest, ih (i + 1),
        List.enumFrom_cons, List.flatMap_cons]
      rfl

/-- Counterexample to C5: the docker-safe transform is not injective — the
distinct inputs "a/b" and "a-b" map to the same output "a-b" (and likewise
"a/b", "a_b" and "a.b" collide under the file-safe transform), so
"distinct inputs map to distinct outputs" fails. -/
theorem c5_sanitize_not_injective :
    docker_safe "a/b" = docker_safe "a-b" ∧ ("a/b" : String) ≠ "a-b" ∧
    file_safe "a/b" = file_safe "a.b" ∧ ("a/b" : String) ≠ "a.b" := by
  refine ⟨by decide, by decide, by decide, by decide⟩

/-- C5 (amended): version sanitization is deterministic — it is a pure
function of the input string, and on the spec's example "release/v5.5" it
produces the docker form "release-v5.5" and the file form "release_v5_5" —
but distinct inputs may collide. -/
theorem c5_sanitize_forms :
    docker_safe "release/v5.5" = "release-v5.5" ∧
    file_safe "release/v5.5" = "release_v5_5" := by
  refine ⟨by decide, by decide⟩

/-- C9: `get_app_source_file` on a name present in the apps mapping
returns that app's `source_file` value, and on a name not present it fails
with the unknown-app error instead of returning a value. -/
theorem c9_source_file_lookup (c : Config) (apps : List (String × AppCfg))
    (name : String) (haps : c.apps = some apps) :
    (∀ ac v, apps.lookup name = some ac → ac.source_file = some v →
      get_app_source_file c name = .ok v) ∧
    (apps.lookup name = none →
      get_app_source_file c name = .error (.unknownApp name)) := by
  constructor
  · intro ac v hac hv
    simp [get_app_source_file, haps, ebind_ok, hac, hv]
    rfl
  · intro hnone
    simp [get_app_source_file, haps, ebind_ok, hnone]
    rfl

/-- Witness for C9 at a concrete configuration: the present app "gpio_test"
yields its `source_file`, the absent app "nope" yields the unknown-app
error. -/
theorem c9_source_file_lookup_witness :
    get_app_source_file cfgOneApp "gpio_test" = .ok (.ystr "main.c") ∧
    get_app_source_file cfgOneApp "nope" = .error (.unknownApp "nope") := by
  constructor
  · exact (c9_source_file_lookup cfgOneApp [("gpio_test", appDocumented)]
      "gpio_test" rfl).1 appDocumented (.ystr "main.c") rfl rfl
  · exact (c9_source_file_lookup cfgOneApp [("gpio_test", appDocumented)]
      "nope" rfl).2 rfl

/-- Reduction of `pure` in `Except Err`. -/
theorem epure {α : Type} (a : α) : (pure a : Except Err α) = .ok a := rfl

/-- Reduction of `throw` in `Except Err`. -/
theorem ethrow {α : Type} (e : Err) : (throw e : Except Err α) = .error e := rfl

/-- Inversion of a successful `generate_matrix` run into its five stages,
in the order the source performs them. -/
theorem generate_matrix_ok {c : Config} {es : List MatrixEntry}
    (h : generate_matrix c = .ok es) :
    ∃ md gvl idfTo excv apps,
      c.metadata = some md ∧
      pyIter (md.idf_versions.getD (.ylist [.ystr "release/v5.5"])) = .ok gvl ∧
      mkIdfTo (md.build_types.getD (.ylist [.ylist [.ystr "Debug", .ystr "Release"]]))
        gvl 0 [] = .ok idfTo ∧
      getExcludes c = .ok excv ∧
      c.apps = some apps ∧
      processApps (md.idf_versions.getD (.ylist [.ystr "release/v5.5"])) idfTo excv
        (md.target.getD (.ystr "esp32c6")) apps = .ok es := by
  unfold generate_matrix at h
  cases hmd : c.metadata with
  | none => rw [hmd] at h; simp [ethrow, ebind_err] at h
  | some md =>
    rw [hmd] at h
    simp only [epure, ebind_ok] at h
    cases hgvl : pyIter (md.idf_versions.getD (.ylist [.ystr "release/v5.5"])) with
    | error e => rw [hgvl] at h; simp [ebind_err] at h
    | ok gvl =>
      rw [hgvl] at h
      simp only [ebind_ok] at h
      cases hidf : mkIdfTo
          (md.build_types.getD (.ylist [.ylist [.ystr "Debug", .ystr "Release"]]))
          gvl 0 [] with
      | error e => rw [hidf] at h; simp [ebind_err] at h
      | ok idfTo =>
        rw [hidf] at h
        simp only [ebind_ok] at h
        cases hexc : getExcludes c with
        | error e => rw [hexc] at h; simp [ebind_err] at h
        | ok excv =>
          rw [hexc] at h
          simp only [ebind_ok] at h
          cases haps : c.apps with
          | none => rw [haps] at h; simp [ethrow, ebind_err] at h
          | some apps =>
            rw [haps] at h
            simp only [epure, ebind_ok] at h
            exact ⟨md, gvl, idfTo, excv, apps, rfl, hgvl, hidf, rfl, rfl, h⟩

/-- A rule list containing the empty rule makes `is_excluded`'s loop
return `True` whenever it returns at all. -/
theorem is_excludedFrom_empty_rule {l : List YVal} {e : MatrixEntry} {b : Bool}
    (hmem : YVal.ymap [] ∈ l) (h : is_excludedFrom l e = .ok b) : b = true := by
  induction l with
  | nil => cases hmem
  | cons x rest ih =>
    rcases List.mem_cons.mp hmem with hx | hx
    · cases hx.symm
      simp [is_excludedFrom, ruleMatch] at h
      exact h
    · cases x with
      | ymap m =>
        by_cases hr : ruleMatch m e
        · simp [is_excludedFrom, hr] at h
          exact h
        · simp only [is_excludedFrom, if_neg hr] at h
          exact ih hx h
      | ynull => simp [is_excludedFrom] at h
      | ybool y => simp [is_excludedFrom] at h
      | yint y => simp [is_excludedFrom] at h
      | ystr y => simp [is_excludedFrom] at h
      | ylist y => simp [is_excludedFrom] at h

/-- With the empty rule among the exclusions, every candidate of every
combination list is excluded. -/
theorem mkEntries_all_excluded {l : List YVal} (hmem : YVal.ymap [] ∈ l)
    (appName cs : String) (tgt : YVal) (combos : List (YVal × YVal))
    {es : List MatrixEntry}
    (h : mkEntries appName cs tgt (.ylist l) combos = .ok es) : es = [] := by
  induction combos generalizing es with
  | nil =>
    simp only [mkEntries] at h
    exact (Except.ok.inj h).symm
  | cons p rest ih =>
    obtain ⟨v, bt⟩ := p
    cases v with
    | ystr s =>
      simp only [mkEntries] at h
      have hie : is_excluded (.ylist l) (mkCand appName cs tgt s bt) =
          is_excludedFrom l (mkCand appName cs tgt s bt) := rfl
      rw [hie] at h
      cases hx : is_excludedFrom l (mkCand appName cs tgt s bt) with
      | error e => rw [hx] at h; simp [ebind_err] at h
      | ok b =>
        rw [hx] at h
        simp only [ebind_ok] at h
        have hb : b = true := is_excludedFrom_empty_rule hmem hx
        subst hb
        cases hm : mkEntries appName cs tgt (.ylist l) rest with
        | error e => rw [hm] at h; simp [ebind_err] at h
        | ok es2 =>
          rw [hm] at h
          simp only [ebind_ok, if_true] at h
          have := (Except.ok.inj h)
          rw [← this]
          exact ih hm
    | ynull => simp [mkEntries] at h
    | ybool y => simp [mkEntries] at h
    | yint y => simp [mkEntries] at h
    | ylist y => simp [mkEntries] at h
    | ymap y => simp [mkEntries] at h

/-- With the empty rule among the exclusions, the per-app loop keeps no
entry for any list of apps. -/
theorem processApps_all_excluded {l : List YVal} (hmem : YVal.ymap [] ∈ l)
    (gv : YVal) (idfTo : List (YVal × YVal)) (tgt : YVal)
    (apps : List (String × AppCfg)) {es : List MatrixEntry}
    (h : processApps gv idfTo (.ylist l) tgt apps = .ok es) : es = [] := by
  induction apps generalizing es with
  | nil =>
    simp only [processApps] at h
    exact (Except.ok.inj h).symm
  | cons p rest ih =>
    obtain ⟨name, ac⟩ := p
    simp only [processApps] at h
    by_cases hen : ((ac.ci_enabled.getD (.ybool true)).truthy : Bool) = false
    · rw [if_pos hen] at h
      exact ih h
    · rw [if_neg hen] at h
      cases hpvl : pyIter (ac.idf_versions.getD gv) with
      | error e => rw [hpvl] at h; simp [ebind_err] at h
      | ok pvl =>
        rw [hpvl] at h
        simp only [ebind_ok] at h
        cases hcomb : effComb ac.build_types idfTo pvl 0 with
        | error e => rw [hcomb] at h; simp [ebind_err] at h
        | ok combos =>
          rw [hcomb] at h
          simp only [ebind_ok] at h
          cases hme : mkEntries name
              (if ac.build_types.isSome || ac.idf_versions.isSome then "app" else "global")
              tgt (.ylist l) combos with
          | error e => rw [hme] at h; simp [ebind_err] at h
          | ok es1 =>
            rw [hme] at h
            simp only [ebind_ok] at h
            cases hrest : processApps gv idfTo (.ylist l) tgt rest with
            | error e => rw [hrest] at h; simp [ebind_err] at h
            | ok es2 =>
              rw [hrest] at h
              simp only [ebind_ok] at h
              have h1 : es1 = [] := mkEntries_all_excluded hmem _ _ _ _ hme
              have h2 : es2 = [] := ih hrest
              rw [← Except.ok.inj h, h1, h2]
              rfl

/-- C10: a configuration whose `exclude_combinations` list contains a rule
with no fields (the empty mapping) makes that rule match every candidate,
so whenever `generate_matrix` returns at all it returns the empty include
list. -/
theorem c10_empty_rule_excludes_all (c : Config) (m : List (String × YVal))
    (rules : List YVal) (es : List MatrixEntry)
    (hci : c.ci_config = some (.ymap m))
    (hex : m.lookup "exclude_combinations" = some (.ylist rules))
    (hr : YVal.ymap [] ∈ rules)
    (hgen : generate_matrix c = .ok es) : es = [] := by
  obtain ⟨md, gvl, idfTo, excv, apps, hmd, hgvl, hidf, hexc, haps, hproc⟩ :=
    generate_matrix_ok hgen
  have hrules : excv = .ylist rules := by
    have hne : rules.isEmpty = false := by
      cases rules with
      | nil => cases hr
      | cons a l => rfl
    rw [getExcludes, hci] at hexc
    simp [hex, YVal.truthy, hne] at hexc
    exact hexc.symm
  subst hrules
  exact processApps_all_excluded hr _ _ _ _ hproc

/-- Witness for C10: the concrete empty-rule configuration resolves to the
empty include list. -/
theorem c10_empty_rule_excludes_all_witness :
    ∃ es, generate_matrix cfgEmptyRule = .ok es ∧ es = [] := by
  refine ⟨[], rfl, ?_⟩
  exact c10_empty_rule_excludes_all cfgEmptyRule
    [("exclude_combinations", .ylist [.ymap []])] [.ymap []] [] rfl rfl
    (by simp) rfl

/-- A key that `List.lookup` finds satisfies the dict-membership test of
`pyContains`. -/
theorem any_key_of_lookup {m : List (String × YVal)} {k : String} {v : YVal}
    (h : m.lookup k = some v) : (m.any fun kv => kv.1 == k) = true := by
  induction m with
  | nil => simp [List.lookup] at h
  | cons p rest ih =>
    obtain ⟨a, b⟩ := p
    by_cases hk : k = a
    · simp [List.any_cons, hk]
    · rw [List.lookup] at h
      have hbeq : (k == a) = false := by simp [hk]
      rw [hbeq] at h
      simp only [List.any_cons]
      rw [ih h]
      simp

/-- Shape of the validator's result when `ci_config` is a dict holding a
truthy non-list `exclude_combinations`: the run succeeds, the error about
it is appended last, and `ok` is the emptiness of the error list. -/
theorem validate_truthy_nonlist_shape (md : Metadata)
    (apps : List (String × AppCfg)) (m : List (String × YVal)) (v : YVal)
    (hv : m.lookup "exclude_combinations" = some v)
    (ht : v.truthy = true) (hl : v.isList = false) :
    ∃ errs warns,
      validate_config ⟨some md, some apps, some (.ymap m)⟩ =
        .ok (errs.isEmpty, errs, warns) ∧
      "ci_config.exclude_combinations is not a list" ∈ errs := by
  have hkey : pyContains (.ymap m) "exclude_combinations" = .ok true := by
    simp [pyContains, any_key_of_lookup hv]
  have hget : pyGetItemS (.ymap m) "exclude_combinations" = .ok v := by
    simp [pyGetItemS, hv]
  have hciE : ciErrors (some (.ymap m)) =
      .ok ["ci_config.exclude_combinations is not a list"] := by
    simp [ciErrors, hkey, hget, ebind_ok, ht, hl]
  simp only [validate_config, validateMain, hciE, ebind_ok, epure]
  exact ⟨_, _, rfl, by simp⟩

/-- Counterexample to C4: `exclude_combinations` present with the non-list
value null is accepted — the validator returns ok with no errors — because
the code only checks `isinstance(excludes, list)` behind a truthiness
guard, so the claim "present with a non-list value implies ok=false with
an error" is false. -/
theorem c4_null_excludes_accepted :
    validate_config cfgNullExcludes = .ok (true, [], []) := rfl

/-- C4 (amended): when `ci_config.exclude_combinations` is present with a
truthy non-list value, validate returns ok=false with an error reported
for it; a falsy non-list value (null, 0, the empty string, the empty
mapping) produces no error. -/
theorem c4_truthy_nonlist_is_error (c : Config) (md : Metadata)
    (apps : List (String × AppCfg)) (m : List (String × YVal)) (v : YVal)
    (hmd : c.metadata = some md) (haps : c.apps = some apps)
    (hci : c.ci_config = some (.ymap m))
    (hv : m.lookup "exclude_combinations" = some v)
    (ht : v.truthy = true) (hl : v.isList = false) :
    ∃ errs warns, validate_config c = .ok (false, errs, warns) ∧
      "ci_config.exclude_combinations is not a list" ∈ errs := by
  obtain ⟨cm, ca, cc⟩ := c
  simp only [Config.metadata] at hmd
  simp only [Config.apps] at haps
  simp only [Config.ci_config] at hci
  subst hmd; subst haps; subst hci
  obtain ⟨errs, warns, heq, hmem⟩ :=
    validate_truthy_nonlist_shape md apps m v hv ht hl
  have hfalse : errs.isEmpty = false := by
    cases errs with
    | nil => cases hmem
    | cons a l => rfl
  rw [hfalse] at heq
  exact ⟨errs, warns, heq, hmem⟩

/-- Witness for C4 at the concrete configuration whose
`exclude_combinations` is the truthy non-list string "oops". -/
theorem c4_truthy_nonlist_is_error_witness :
    ∃ errs warns, validate_config cfgTruthyExcludes = .ok (false, errs, warns) ∧
      "ci_config.exclude_combinations is not a list" ∈ errs :=
  c4_truthy_nonlist_is_error cfgTruthyExcludes mdFull [("a", appDocumented)]
    [("exclude_combinations", .ystr "oops")] (.ystr "oops")
    rfl rfl rfl rfl rfl rfl

/-- The warnings component of the per-app validation loop is exactly the
spec-side list of per-app warnings. -/
theorem appChecks_snd (apps : List (String × AppCfg)) :
    (appChecks apps).2 = specAppWarnings apps := by
  induction apps with
  | nil => rfl
  | cons p rest ih =>
    obtain ⟨n, ac⟩ := p
    simp only [appChecks, specAppWarnings]
    rw [ih, List.append_assoc]

/-- C6: validation, being a pure function of the configuration, cannot
mutate it; whenever it succeeds on a configuration with both required
sections, its warnings component is the complete list of metadata and
per-app warnings (no warning aborts the run or is dropped, whatever errors
occur), and the returned ok flag is exactly the emptiness of the error
list, so warnings alone never make ok false. -/
theorem c6_warnings_complete (c : Config) (md : Metadata)
    (apps : List (String × AppCfg)) (r : Bool × List String × List String)
    (hmd : c.metadata = some md) (haps : c.apps = some apps)
    (hr : validate_config c = .ok r) :
    r.2.2 = specMetadataWarnings md ++ specAppWarnings apps ∧
    r.1 = r.2.1.isEmpty := by
  obtain ⟨cm, ca, cc⟩ := c
  simp only [Config.metadata] at hmd
  simp only [Config.apps] at haps
  subst hmd; subst haps
  simp only [validate_config, validateMain] at hr
  cases hce : ciErrors cc with
  | error e => rw [hce] at hr; simp [ebind_err] at hr
  | ok ciErrs =>
    rw [hce] at hr
    simp only [ebind_ok, epure] at hr
    rw [← Except.ok.inj hr]
    refine ⟨?_, rfl⟩
    by_cases happ : apps.isEmpty
    · obtain rfl : apps = [] := List.isEmpty_iff.mp happ
      rfl
    · simp [happ, appChecks_snd, specMetadataWarnings]

/-- The `is_excluded` loop over a list of dict rules computes exactly
"some rule matches". -/
theorem is_excludedFrom_maps (rules : List (List (String × YVal)))
    (e : MatrixEntry) :
    is_excludedFrom (rules.map YVal.ymap) e =
      .ok (rules.any fun m2 => ruleMatch m2 e) := by
  induction rules with
  | nil => rfl
  | cons m rest ih =>
    by_cases hr : ruleMatch m e
    · simp [is_excludedFrom, hr]
    · simp [is_excludedFrom, hr, ih]

/-- The candidate loop keeps exactly the candidates matching no rule:
`mkEntries` on dict rules is a filter over the constructed candidates. -/
theorem mkEntries_filter (appName cs : String) (tgt : YVal)
    (rules : List (List (String × YVal))) (combos : List (String × YVal)) :
    mkEntries appName cs tgt (.ylist (rules.map YVal.ymap))
        (combos.map fun p => (YVal.ystr p.1, p.2)) =
      .ok ((combos.map fun p => mkCand appName cs tgt p.1 p.2).filter
        fun e2 => !(rules.any fun m2 => ruleMatch m2 e2)) := by
  induction combos with
  | nil => rfl
  | cons p rest ih =>
    obtain ⟨s, bt⟩ := p
    have hie : is_excluded (.ylist (rules.map YVal.ymap))
        (mkCand appName cs tgt s bt) =
        .ok (rules.any fun m2 => ruleMatch m2 (mkCand appName cs tgt s bt)) := by
      simpa [is_excluded, ebind_ok, pyIter] using
        is_excludedFrom_maps rules (mkCand appName cs tgt s bt)
    simp only [List.map_cons, mkEntries, hie, ebind_ok, ih, List.filter_cons]
    by_cases hx : rules.any fun m2 => ruleMatch m2 (mkCand appName cs tgt s bt)
    · simp [hx]
    · simp [hx]

/-- C7: an exclusion rule matches a candidate exactly when every field
named in the rule equals the candidate's corresponding field (omitted
fields are unconstrained wildcards); a rule naming a field unknown to the
candidate never matches; and the candidate loop includes a candidate
exactly when it matches none of the rules (the result is the filter of the
constructed candidates). -/
theorem c7_exclusion_semantics (appName cs : String) (tgt : YVal)
    (rules : List (List (String × YVal))) (combos : List (String × YVal))
    (e : MatrixEntry) :
    (mkEntries appName cs tgt (.ylist (rules.map YVal.ymap))
        (combos.map fun p => (YVal.ystr p.1, p.2)) =
      .ok ((combos.map fun p => mkCand appName cs tgt p.1 p.2).filter
        fun e2 => !(rules.any fun m2 => ruleMatch m2 e2))) ∧
    (∀ m2 : List (String × YVal),
      (ruleMatch m2 e = true ↔ ∀ kv ∈ m2, e.get kv.1 = some kv.2)) ∧
    (∀ m2 : List (String × YVal), ∀ kv ∈ m2, e.get kv.1 = none →
      ruleMatch m2 e = false) := by
  have hiff : ∀ m2 : List (String × YVal),
      (ruleMatch m2 e = true ↔ ∀ kv ∈ m2, e.get kv.1 = some kv.2) := by
    intro m2
    simp [ruleMatch, List.all_eq_true, beq_iff_eq]
  refine ⟨mkEntries_filter appName cs tgt rules combos, hiff, ?_⟩
  intro m2 kv hkv hnone
  rw [Bool.eq_false_iff]
  intro hall
  have := (hiff m2).mp hall kv hkv
  rw [hnone] at this
  cases this

/-- Witness for C7: a rule naming only `app_name` removes the matching
candidate. -/
theorem c7_exclusion_semantics_witness :
    mkEntries "x" "global" (.ystr "esp32c6") (.ylist [.ymap [("app_name", .ystr "x")]])
      [(.ystr "release/v5.5", .ystr "Debug")] = .ok [] := by
  have h := (c7_exclusion_semantics "x" "global" (.ystr "esp32c6")
    [[("app_name", .ystr "x")]] [("release/v5.5", .ystr "Debug")]
    (mkCand "x" "global" (.ystr "esp32c6") "release/v5.5" (.ystr "Debug"))).1
  simpa [mkCand, ruleMatch, MatrixEntry.get] using h

/-- Every entry `mkEntries` keeps carries the app name and provenance tag
it was constructed with. -/
theorem mkEntries_mem {appName cs : String} {tgt excv : YVal}
    {combos : List (YVal × YVal)} {es : List MatrixEntry}
    (h : mkEntries appName cs tgt excv combos = .ok es) :
    ∀ e ∈ es, e.app_name = appName ∧ e.config_source = cs := by
  induction combos generalizing es with
  | nil =>
    simp only [mkEntries] at h
    rw [← Except.ok.inj h]
    intro e he
    cases he
  | cons p rest ih =>
    obtain ⟨v, bt⟩ := p
    cases v with
    | ystr s =>
      simp only [mkEntries] at h
      cases hx : is_excluded excv (mkCand appName cs tgt s bt) with
      | error e2 => rw [hx] at h; simp [ebind_err] at h
      | ok b =>
        rw [hx] at h
        simp only [ebind_ok] at h
        cases hm : mkEntries appName cs tgt excv rest with
        | error e2 => rw [hm] at h; simp [ebind_err] at h
        | ok es2 =>
          rw [hm] at h
          simp only [ebind_ok] at h
          rw [← Except.ok.inj h]
          cases b with
          | true =>
            simp only [if_true]
            exact ih hm
          | false =>
            simp only [Bool.false_eq_true, if_false]
            intro e he
            rcases List.mem_cons.mp he with he1 | he1
            · rw [he1]
              exact ⟨rfl, rfl⟩
            · exact ih hm e he1
    | ynull => simp [mkEntries] at h
    | ybool y => simp [mkEntries] at h
    | yint y => simp [mkEntries] at h
    | ylist y => simp [mkEntries] at h
    | ymap y => simp [mkEntries] at h

/-- Every entry the per-app loop produces comes from some app of the list,
carries that app's name, and carries the provenance tag computed from that
app's overrides. -/
theorem processApps_mem {gv : YVal} {idfTo : List (YVal × YVal)}
    {excv tgt : YVal} {apps : List (String × AppCfg)} {es : List MatrixEntry}
    (h : processApps gv idfTo excv tgt apps = .ok es) :
    ∀ e ∈ es, ∃ name ac, (name, ac) ∈ apps ∧ e.app_name = name ∧
      e.config_source =
        (if ac.build_types.isSome || ac.idf_versions.isSome then "app" else "global") := by
  induction apps generalizing es with
  | nil =>
    simp only [processApps] at h
    rw [← Except.ok.inj h]
    intro e he
    cases he
  | cons p rest ih =>
    obtain ⟨name, ac⟩ := p
    simp only [processApps] at h
    by_cases hen : ((ac.ci_enabled.getD (.ybool true)).truthy : Bool) = false
    · rw [if_pos hen] at h
      intro e he
      obtain ⟨n2, ac2, hm2, hn2, hc2⟩ := ih h e he
      exact ⟨n2, ac2, List.mem_cons_of_mem _ hm2, hn2, hc2⟩
    · rw [if_neg hen] at h
      cases hpvl : pyIter (ac.idf_versions.getD gv) with
      | error e2 => rw [hpvl] at h; simp [ebind_err] at h
      | ok pvl =>
        rw [hpvl] at h
        simp only [ebind_ok] at h
        cases hcomb : effComb ac.build_types idfTo pvl 0 with
        | error e2 => rw [hcomb] at h; simp [ebind_err] at h
        | ok combos =>
          rw [hcomb] at h
          simp only [ebind_ok] at h
          cases hme : mkEntries name
              (if ac.build_types.isSome || ac.idf_versions.isSome then "app" else "global")
              tgt excv combos with
          | error e2 => rw [hme] at h; simp [ebind_err] at h
          | ok es1 =>
            rw [hme] at h
            simp only [ebind_ok] at h
            cases hrest : processApps gv idfTo excv tgt rest with
            | error e2 => rw [hrest] at h; simp [ebind_err] at h
            | ok es2 =>
              rw [hrest] at h
              simp only [ebind_ok] at h
              rw [← Except.ok.inj h]
              intro e he
              rcases List.mem_append.mp he with he1 | he1
              · obtain ⟨hn, hc⟩ := mkEntries_mem hme e he1
                exact ⟨name, ac, List.mem_cons_self _ _, hn, hc⟩
              · obtain ⟨n2, ac2, hm2, hn2, hc2⟩ := ih hrest e he1
                exact ⟨n2, ac2, List.mem_cons_of_mem _ hm2, hn2, hc2⟩

/-- In an association list with distinct keys, two bindings of one key are
one binding. -/
theorem assoc_unique {l : List (String × AppCfg)}
    (h : (l.map Prod.fst).Nodup) {k : String} {a b : AppCfg}
    (ha : (k, a) ∈ l) (hb : (k, b) ∈ l) : a = b := by
  induction l with
  | nil => cases ha
  | cons p rest ih =>
    simp only [List.map_cons, List.nodup_cons] at h
    rcases List.mem_cons.mp ha with h1 | h1 <;>
      rcases List.mem_cons.mp hb with h2 | h2
    · exact congrArg Prod.snd (h1.trans h2.symm)
    · exfalso
      apply h.1
      have hp1 : p.1 = k := by rw [← h1]
      rw [hp1]
      simpa using List.mem_map_of_mem Prod.fst h2
    · exfalso
      apply h.1
      have hp1 : p.1 = k := by rw [← h2]
      rw [hp1]
      simpa using List.mem_map_of_mem Prod.fst h1
    · exact ih h.2 h1 h2

/-- C8: apps without `idf_versions` and `build_types` overrides produce
entries tagged `config_source = "global"`, and apps declaring either
override produce entries tagged `"app"` — for every entry of a successful
`generate_matrix` run whose app name identifies a unique app of the
configuration. -/
theorem c8_config_source (c : Config) (apps : List (String × AppCfg))
    (es : List MatrixEntry) (e : MatrixEntry) (ac : AppCfg)
    (haps : c.apps = some apps) (hnd : (apps.map Prod.fst).Nodup)
    (hmem : (e.app_name, ac) ∈ apps)
    (hgen : generate_matrix c = .ok es) (he : e ∈ es) :
    e.config_source =
      (if ac.build_types.isSome || ac.idf_versions.isSome then "app" else "global") := by
  obtain ⟨md, gvl, idfTo, excv, apps2, hmd, hgvl, hidf, hexc, haps2, hproc⟩ :=
    generate_matrix_ok hgen
  rw [haps] at haps2
  obtain rfl : apps = apps2 := Option.some.inj haps2
  obtain ⟨name, ac2, hm2, hn2, hc2⟩ := processApps_mem hproc e he
  rw [← hn2] at hm2
  rw [hc2, assoc_unique hnd hm2 hmem]

/-- Witness for C8: the first entry of the one-app configuration carries
the provenance of its override-free app. -/
theorem c8_config_source_witness :
    ({ idf_version := "release/v5.5", idf_version_docker := "release-v5.5",
       idf_version_file := "release_v5_5", build_type := .ystr "Debug",
       app_name := "gpio_test", target := .ystr "esp32c6",
       config_source := "global" } : MatrixEntry).config_source =
      (if appDocumented.build_types.isSome || appDocumented.idf_versions.isSome
       then "app" else "global") := by
  refine c8_config_source cfgOneApp [("gpio_test", appDocumented)] _ _
    appDocumented rfl (by decide) (by decide) rfl ?_
  decide

/-- Witness for C6 at a concrete configuration: metadata with no optional
keys yields all three metadata warnings, none is dropped, and ok is true
with no errors. -/
theorem c6_warnings_complete_witness :
    ∃ r, validate_config cfgOneApp = .ok r ∧
      r.2.2 = specMetadataWarnings mdEmpty ++
        specAppWarnings [("gpio_test", appDocumented)] ∧
      r.1 = r.2.1.isEmpty := by
  obtain ⟨h1, h2⟩ := c6_warnings_complete cfgOneApp mdEmpty
    [("gpio_test", appDocumented)]
    (true, [], ["No 'idf_versions' specified in metadata, using default",
      "No 'build_types' specified in metadata, using default",
      "No 'target' specified in metadata, using default"]) rfl rfl rfl
  exact ⟨_, rfl, h1, h2⟩
